import Mathlib

/-!
Sprint Calendar Visualizer — verification development.

Shallow embedding of `streamlit_app.py` (functions `parse_sprint_data` and
`generate_wall_calendar`) and proofs about it.

Conventions of the embedding:
* Calendar dates carry no time component (all parsed tokens are plain
  `YYYY-MM-DD` dates); a date is `⟨year, month, day⟩` and the chronological
  order on valid dates is the lexicographic order on those triples, which is
  exactly how Python `datetime.date` objects compare.
* `pd.to_datetime` on a date token is modelled as an ISO `YYYY-MM-DD` parser
  returning `Option Date`: `none` models the `ParseError` the library raises
  on a token that is not a recognizable calendar date.
* Colors are RGB triples of rationals in `[0,1]` (the alpha channel returned
  by the colormap is constantly 1 and the code only ever reads channels
  `[:3]`, so it is omitted).
* The mutable matplotlib table cells are modelled by explicit state passing:
  a `CellState` records the cell's face color (`none` = the unfilled default)
  and whether its day-number text has been set to white; the per-sprint
  painting loop becomes a fold over the sprint list.
-/

namespace SprintCal

/-- A calendar date, no time component. -/
structure Date where
  year : Nat
  month : Nat
  day : Nat
deriving DecidableEq, Repr

/-- Chronological comparison of dates: lexicographic on (year, month, day),
which is how Python `date` objects compare. -/
def dateLe (a b : Date) : Bool :=
  a.year < b.year ||
    (a.year = b.year && (a.month < b.month ||
      (a.month = b.month && a.day ≤ b.day)))

/-- Gregorian leap-year rule (as used by Python's `calendar` module). -/
def isLeap (y : Nat) : Bool :=
  (y % 4 == 0 && y % 100 != 0) || y % 400 == 0

/-- Number of days in a month of the (proleptic) Gregorian calendar. -/
def daysInMonth (y m : Nat) : Nat :=
  if m = 2 then (if isLeap y then 29 else 28)
  else if m = 4 ∨ m = 6 ∨ m = 9 ∨ m = 11 then 30
  else 31

/-- Days in the months of year `y` strictly before month `m`. -/
def daysBeforeMonth (y m : Nat) : Nat :=
  ((List.range (m - 1)).map (fun k => daysInMonth y (k + 1))).foldl (· + ·) 0

/-- Proleptic-Gregorian ordinal of a date (day 1 = January 1 of year 1),
matching Python's `date.toordinal`. -/
def ordinal (y m d : Nat) : Nat :=
  365 * (y - 1) + (y - 1) / 4 - (y - 1) / 100 + (y - 1) / 400 +
    daysBeforeMonth y m + d

/-- Day of week, Monday = 0 .. Sunday = 6, as in Python's `calendar.weekday`
(January 1 of year 1 is a Monday). -/
def weekday (y m d : Nat) : Nat :=
  (ordinal y m d + 6) % 7

/-- A record parsed from one accepted data line
(`{'Sprint': …, 'Start Date': …, 'End Date': …}`). -/
structure SprintRecord where
  sprint : String
  startDate : Date
  endDate : Date
deriving DecidableEq, Repr

/-- The error `pd.to_datetime` raises on an unparsable date token, carrying
the offending token. -/
structure ParseError where
  token : String
deriving DecidableEq, Repr

/-- Split a character list at every character satisfying `p`; the pieces
between separators are kept even when empty (callers filter them). -/
def splitChars (p : Char → Bool) : List Char → List (List Char)
  | [] => [[]]
  | c :: cs =>
    if p c then [] :: splitChars p cs
    else
      match splitChars p cs with
      | [] => [[c]]
      | t :: ts => (c :: t) :: ts

/-- Python `str.strip()`: drop whitespace from both ends. -/
def trimChars (cs : List Char) : List Char :=
  ((cs.dropWhile Char.isWhitespace).reverse.dropWhile Char.isWhitespace).reverse

/-- The numeric value of an all-digit, non-empty character list (`none`
otherwise): how a date component token is read. -/
def digitsToNat? : List Char → Option Nat
  | [] => none
  | cs =>
    cs.foldl
      (fun acc c =>
        match acc with
        | none => none
        | some n => if c.isDigit then some (10 * n + (c.toNat - 48)) else none)
      (some 0)

/-- `pd.to_datetime(tok)` for a date-only token, modelled as an ISO 8601
`YYYY-MM-DD` parser (the input format the program documents): `none` when the
token is not a recognizable calendar date. -/
def toDatetime (s : String) : Option Date :=
  match (splitChars (· = '-') s.data).map digitsToNat? with
  | [some y, some m, some d] =>
    if 1 ≤ m ∧ m ≤ 12 ∧ 1 ≤ d ∧ d ≤ daysInMonth y m then
      some ⟨y, m, d⟩
    else none
  | _ => none

/-- Python `line.split()`: split on whitespace runs (space, tab, CR, LF),
dropping empty tokens. -/
def splitWs (line : String) : List String :=
  ((splitChars Char.isWhitespace line.data).filter (· ≠ [])).map
    (fun cs => (⟨cs⟩ : String))

/-- One iteration of the parser loop body on a data line:
`.ok none` when the line has fewer than 3 tokens (skipped),
`.ok (some record)` when both dates parse, `.error` when a date token fails.
-/
def parseLine (line : String) : Except ParseError (Option SprintRecord) :=
  match splitWs line with
  | name :: startTok :: endTok :: _ =>
    match toDatetime startTok with
    | none => .error ⟨startTok⟩
    | some sd =>
      match toDatetime endTok with
      | none => .error ⟨endTok⟩
      | some ed => .ok (some ⟨name, sd, ed⟩)
  | _ => .ok none

/-- The parser loop over the data lines: accumulates records in line order,
propagating the first date failure. -/
def parseLines : List String → Except ParseError (List SprintRecord)
  | [] => .ok []
  | line :: rest =>
    match parseLine line with
    | .error e => .error e
    | .ok none => parseLines rest
    | .ok (some r) => (parseLines rest).map (r :: ·)

/-- `lines = [line.strip() for line in text.strip().split('\n') if line.strip()]` -/
def linesOf (text : String) : List String :=
  (((splitChars (· = '\n') (trimChars text.data)).map trimChars).filter
    (· ≠ [])).map (fun cs => (⟨cs⟩ : String))

/-- `parse_sprint_data`: split into non-empty trimmed lines, drop the header
line, run the parser loop. -/
def parse_sprint_data (text : String) : Except ParseError (List SprintRecord) :=
  parseLines ((linesOf text).drop 1)

/-- The record an individual data line contributes, if any (used to state
order-preservation). -/
def lineRecord (line : String) : Option SprintRecord :=
  match parseLine line with
  | .ok (some r) => some r
  | _ => none

/-! ## Renderer: `generate_wall_calendar` -/

/-- An RGB color, channels rational in `[0,1]`.  The alpha channel the tab10
colormap also returns is constantly 1 and never read by the code (`[:3]`),
so it is omitted. -/
structure Color where
  r : ℚ
  g : ℚ
  b : ℚ
deriving DecidableEq, Repr

/-- A color from 8-bit channel values. -/
def rgb8 (r g b : Nat) : Color :=
  ⟨(r : ℚ) / 255, (g : ℚ) / 255, (b : ℚ) / 255⟩

/-- The matplotlib `tab10` categorical palette
(#1f77b4, #ff7f0e, #2ca02c, #d62728, #9467bd,
 #8c564b, #e377c2, #7f7f7f, #bcbd22, #17becf). -/
def tab10 : List Color :=
  [rgb8 31 119 180, rgb8 255 127 14, rgb8 44 160 44, rgb8 214 39 40,
   rgb8 148 103 189, rgb8 140 86 75, rgb8 227 119 194, rgb8 127 127 127,
   rgb8 188 189 34, rgb8 23 190 207]

/-- `plt.cm.tab10(np.linspace(0, 1, n))[i]` in exact arithmetic: sample `i`
of `n` evenly spaced points in `[0,1]` run through the 10-entry listed
colormap, i.e. entry `min 9 ⌊10·i/(n-1)⌋` (the colormap clamps the value 1.0
to the last entry; `linspace` with a single point yields `[0.0]`). -/
def paletteColor (n i : Nat) : Color :=
  (tab10.getD (if n ≤ 1 then 0 else min 9 ((10 * i) / (n - 1))) (rgb8 0 0 0))

/-- The key/value insertions performed by the dict comprehension
`{row['Sprint']: colors[i] for i, (_, row) in enumerate(df.iterrows())}`,
in iteration order (`i` counts up from `start`; the palette is sized to the
whole schedule `n = len(df)`). -/
def assignFrom (n : Nat) : Nat → List SprintRecord → List (String × Color)
  | _, [] => []
  | i, r :: rs => (r.sprint, paletteColor n i) :: assignFrom n (i + 1) rs

/-- All insertions of the `sprint_colors` dict comprehension. -/
def colorAssignment (df : List SprintRecord) : List (String × Color) :=
  assignFrom df.length 0 df

/-- Python dict lookup after the insertions in `l`: a later insertion of the
same key overwrites an earlier one, so the lookup scans from the right. -/
def lookupDict : List (String × Color) → String → Option Color
  | [], _ => none
  | kv :: rest, k =>
    match lookupDict rest k with
    | some v => some v
    | none => if kv.1 = k then some kv.2 else none

/-- Python dict key order after the insertions in `l`: keys appear in order
of first insertion; overwriting a value does not move its key. -/
def dictKeys (l : List (String × Color)) : List String :=
  l.foldl (fun ks kv => if kv.1 ∈ ks then ks else ks ++ [kv.1]) []

/-- `sprint_colors[name]`.  Painting only ever looks up names of rows of
`df`, all of which the comprehension inserted, so the `none` fallback (a
`KeyError` in Python) is unreachable there. -/
def sprintColorOf (df : List SprintRecord) (name : String) : Color :=
  (lookupDict (colorAssignment df) name).getD (rgb8 0 0 0)

/-- Chop the flat cell list of a month into rows of 7; the list is always
padded to a multiple of 7 before this is called, so the catch-all row for a
short remainder is never reached. -/
def weeksOf : List Nat → List (List Nat)
  | [] => []
  | a :: b :: c :: d :: e :: f :: g :: rest =>
    [a, b, c, d, e, f, g] :: weeksOf rest
  | rest => [rest]

/-- `calendar.monthcalendar(year, month)`: Monday-first week-major matrix of
day numbers, `0` for padding cells outside the month. -/
def monthcalendar (y m : Nat) : List (List Nat) :=
  let fw := weekday y m 1
  let n := daysInMonth y m
  weeksOf (List.replicate fw 0 ++ (List.range n).map (· + 1) ++
    List.replicate ((7 - (fw + n) % 7) % 7) 0)

/-- The day number shown at row `wi`, column `di` of the month grid
(`0` when the position is padding or out of range). -/
def dayAt (y m wi di : Nat) : Nat :=
  ((monthcalendar y m).getD wi []).getD di 0

/-- State of one day cell of the table: face color (`none` = the unfilled
matplotlib default) and whether the day-number text was set to white. -/
structure CellState where
  facecolor : Option Color
  textWhite : Bool
deriving DecidableEq, Repr

/-- `'#f2f2f2'`, the weekend fill. -/
def weekendGray : Color := rgb8 242 242 242

/-- Cell state after the base styling and before the sprint loop: columns 5
and 6 (Saturday, Sunday) holding a day number get the light gray weekend
fill; every other day cell is unfilled; text starts in the default (dark)
color. -/
def baseCell (day di : Nat) : CellState :=
  { facecolor :=
      if (di = 5 ∨ di = 6) ∧ day ≠ 0 then some weekendGray else none,
    textWhite := false }

/-- `sprint_start.date() <= date(year, month, day) <= sprint_end.date()`,
guarded by the `if day == 0: continue` skip of padding cells. -/
def covers (sp : SprintRecord) (y m day : Nat) : Bool :=
  day ≠ 0 && dateLe sp.startDate ⟨y, m, day⟩ && dateLe ⟨y, m, day⟩ sp.endDate

/-- `np.mean(color[:3]) < 0.5`: the painted color counts as dark. -/
def meanDark (c : Color) : Bool :=
  (c.r + c.g + c.b) / 3 < 1 / 2

/-- The body of the sprint loop for one cell: when the sprint covers the
cell's date, overwrite the face color with the sprint's color and, if that
color is dark, set the text white (a light color leaves the text as is). -/
def paintStep (sc : String → Color) (y m day : Nat)
    (st : CellState) (sp : SprintRecord) : CellState :=
  if covers sp y m day then
    { facecolor := some (sc sp.sprint),
      textWhite := if meanDark (sc sp.sprint) then true else st.textWhite }
  else st

/-- The whole sprint loop over one cell: fold `paintStep` over the schedule
in ScheduleSet order. -/
def paintCells (sc : String → Color) (y m day : Nat)
    (init : CellState) (sprints : List SprintRecord) : CellState :=
  sprints.foldl (paintStep sc y m day) init

/-- Final state of the day cell holding `day` in column `di` of month
`(y, m)`: base styling, then the sprint loop with the colors assigned from
the whole schedule. -/
def cellAt (df : List SprintRecord) (y m day di : Nat) : CellState :=
  paintCells (sprintColorOf df) y m day (baseCell day di) df

/-- The sprints of the schedule that paint the cell holding `day` of month
`(y, m)`, in ScheduleSet order. -/
def covering (df : List SprintRecord) (y m day : Nat) : List SprintRecord :=
  df.filter (fun sp => covers sp y m day)

/-- `(year, month) -> (year, month + 1)` with 12 rolling over to January of
the next year (`current_month += 1; if current_month > 12: …`). -/
def nextMonth (ym : Nat × Nat) : Nat × Nat :=
  if ym.2 + 1 > 12 then (ym.1 + 1, 1) else (ym.1, ym.2 + 1)

/-- Python tuple comparison `(cy, cm) <= (ey, em)`. -/
def lexLe (a b : Nat × Nat) : Bool :=
  a.1 < b.1 || (a.1 = b.1 && a.2 ≤ b.2)

/-- The `while (current_year, current_month) <= end_month` loop collecting
`months_to_display`, from current month `c` up to end month `e`. -/
def monthsFrom (e c : Nat × Nat) : List (Nat × Nat) :=
  if lexLe c e then c :: monthsFrom e (nextMonth c) else []
termination_by (13 * e.1 + e.2 + 1) - (13 * c.1 + min c.2 13)
decreasing_by
  simp only [lexLe, nextMonth, Bool.or_eq_true, Bool.and_eq_true,
    decide_eq_true_eq] at *
  split <;> omega

/-- `df['Start Date'].min()` (`none` on an empty schedule). -/
def minStart : List SprintRecord → Option Date
  | [] => none
  | r :: rs =>
    some (rs.foldl
      (fun a s => if dateLe s.startDate a then s.startDate else a)
      r.startDate)

/-- `df['End Date'].max()` (`none` on an empty schedule). -/
def maxEnd : List SprintRecord → Option Date
  | [] => none
  | r :: rs =>
    some (rs.foldl
      (fun a s => if dateLe a s.endDate then s.endDate else a)
      r.endDate)

/-- `months_to_display` for a schedule: every (year, month) from
`min_date`'s month through `max_date`'s month. -/
def months_to_display (df : List SprintRecord) : List (Nat × Nat) :=
  match minStart df, maxEnd df with
  | some mn, some mx => monthsFrom (mx.year, mx.month) (mn.year, mn.month)
  | _, _ => []

/-- The painted data rows of one month's table (the bold `#e6e6e6` weekday
header occupies table row 0; data row `wi` here is table row `wi + 1`). -/
def monthTable (df : List SprintRecord) (y m : Nat) : List (List CellState) :=
  (monthcalendar y m).map (fun week =>
    (week.enum).map (fun p => cellAt df y m p.2 p.1))

/-- What the assembled figure determines: the displayed months, their painted
day-cell grids, and the legend entries (one per `sprint_colors` key, in dict
key order, paired with the looked-up color). -/
structure Figure where
  months : List (Nat × Nat)
  tables : List (List (List CellState))
  legend : List (String × Color)
deriving DecidableEq, Repr

/-- `generate_wall_calendar(df)`: `None` on an empty schedule, otherwise the
assembled multi-month figure. -/
def generate_wall_calendar (df : List SprintRecord) : Option Figure :=
  match df with
  | [] => none
  | _ :: _ =>
    some { months := months_to_display df,
           tables := (months_to_display df).map
             (fun ym => monthTable df ym.1 ym.2),
           legend := (dictKeys (colorAssignment df)).map
             (fun name => (name, sprintColorOf df name)) }

/-- Index of a month on the unbounded month line: `(y, m) ↦ 12·y + (m-1)`;
one step of the enumeration loop advances this index by one (used to state
what the loop enumerates). -/
def monthIdx (ym : Nat × Nat) : Nat := 12 * ym.1 + (ym.2 - 1)

/-- The month at a given index on the month line. -/
def idxMonth (n : Nat) : Nat × Nat := (n / 12, n % 12 + 1)

/-- Modelled from the spec: the once-only text-contrast policy it claims
equivalent — evaluate the darkness check only on the winning
(last-write-wins) sprint color of the cell, nothing when no sprint covers
it. -/
def textWhiteOnceSpec (df : List SprintRecord) (y m day : Nat) : Bool :=
  match (covering df y m day).getLast? with
  | some sp => meanDark (sprintColorOf df sp.sprint)
  | none => false

/-! ## Parser lemmas -/

/-- A data line with fewer than 3 whitespace-separated tokens parses to
`.ok none`: no error, no record. -/
theorem parseLine_short (line : String)
    (h : (splitWs line).length < 3) : parseLine line = Except.ok none := by
  unfold parseLine
  rcases hs : splitWs line with _ | ⟨a, _ | ⟨b, _ | ⟨c, t⟩⟩⟩ <;>
    simp_all [List.length]
  omega

/-- A successful run of the parser loop returns exactly the per-line records
in line order. -/
theorem parseLines_ok (ls : List String) :
    ∀ recs, parseLines ls = Except.ok recs →
      recs = ls.filterMap lineRecord := by
  induction ls with
  | nil =>
    intro recs h
    simp only [parseLines] at h
    cases h
    rfl
  | cons line rest ih =>
    intro recs h
    simp only [parseLines] at h
    cases hp : parseLine line with
    | error e => rw [hp] at h; cases h
    | ok o =>
      cases o with
      | none =>
        rw [hp] at h
        rw [List.filterMap_cons]
        have hl : lineRecord line = none := by simp [lineRecord, hp]
        rw [hl]
        exact ih recs h
      | some r =>
        rw [hp] at h
        cases hr : parseLines rest with
        | error e => rw [hr] at h; cases h
        | ok recs' =>
          rw [hr] at h
          simp only [Except.map] at h
          cases h
          rw [List.filterMap_cons]
          have hl : lineRecord line = some r := by simp [lineRecord, hp]
          rw [hl]
          exact congrArg (r :: ·) (ih recs' hr)

end SprintCal

/-! ## The claims -/

namespace SprintCal

/-- C4: `generate_wall_calendar` returns no figure exactly on the empty
schedule; every non-empty schedule yields a figure. -/
theorem wall_calendar_none_iff_empty (df : List SprintRecord) :
    generate_wall_calendar df = none ↔ df = [] := by
  cases df <;> simp [generate_wall_calendar]

/-- C5: a data line that splits into fewer than 3 whitespace-separated
tokens is silently skipped: wherever it sits among the data lines, the
parser loop neither fails because of it nor adds a record for it —
the result is that of the remaining lines. -/
theorem short_line_skipped (pre post : List String) (line : String)
    (h : (splitWs line).length < 3) :
    parseLines (pre ++ line :: post) = parseLines (pre ++ post) := by
  induction pre with
  | nil =>
    simp only [List.nil_append, parseLines, parseLine_short line h]
  | cons p pre ih =>
    simp only [List.cons_append, parseLines, List.append_eq, ih]

/-- Witness for C5: a concrete two-token line between data lines is
skipped. -/
theorem short_line_skipped_witness :
    (splitWs "x y").length < 3 ∧
      parseLines (["A 2025-01-01 2025-01-02"] ++ "x y" :: []) =
        parseLines (["A 2025-01-01 2025-01-02"] ++ []) :=
  ⟨by decide, short_line_skipped ["A 2025-01-01 2025-01-02"] [] "x y"
    (by decide)⟩

/-- A data line with at least 3 tokens whose second or third token is not a
recognizable calendar date makes the loop body fail. -/
theorem parseLine_bad_date (line name s e : String) (t : List String)
    (hs : splitWs line = name :: s :: e :: t)
    (hbad : toDatetime s = none ∨ toDatetime e = none) :
    ∃ err, parseLine line = Except.error err := by
  rcases hbad with hb | hb
  · exact ⟨⟨s⟩, by simp only [parseLine, hs, hb]⟩
  · cases hd : toDatetime s with
    | none => exact ⟨⟨s⟩, by simp only [parseLine, hs, hd]⟩
    | some d => exact ⟨⟨e⟩, by simp only [parseLine, hs, hd, hb]⟩

/-- C6: a data line with at least 3 tokens whose second or third token is
not a recognizable calendar date makes the whole parse fail with a
`ParseError` (no record list is produced at all, in particular no partial
record for that line). -/
theorem bad_date_raises (pre post : List String) (line name s e : String)
    (t : List String)
    (hs : splitWs line = name :: s :: e :: t)
    (hbad : toDatetime s = none ∨ toDatetime e = none) :
    ∃ err, parseLines (pre ++ line :: post) = Except.error err := by
  induction pre with
  | nil =>
    obtain ⟨err, he⟩ := parseLine_bad_date line name s e t hs hbad
    exact ⟨err, by simp only [List.nil_append, parseLines, he]⟩
  | cons p pre ih =>
    obtain ⟨err, he⟩ := ih
    cases hp : parseLine p with
    | error e' => exact ⟨e', by simp only [List.cons_append, parseLines, hp]⟩
    | ok o =>
      cases o with
      | none =>
        exact ⟨err,
          by simp only [List.cons_append, parseLines, List.append_eq, hp, he]⟩
      | some r =>
        refine ⟨err, ?_⟩
        simp only [List.cons_append, parseLines, List.append_eq, hp, he,
          Except.map]

/-- Witness for C6: a concrete line whose start-date token has month 13
fails the parse placed after a good line. -/
theorem bad_date_raises_witness :
    splitWs "A 2025-13-01 2025-01-02" =
        "A" :: "2025-13-01" :: "2025-01-02" :: [] ∧
      toDatetime "2025-13-01" = none ∧
      ∃ err, parseLines (["B 2025-01-01 2025-01-02"] ++
        "A 2025-13-01 2025-01-02" :: []) = Except.error err :=
  ⟨by decide, by decide,
    bad_date_raises ["B 2025-01-01 2025-01-02"] []
      "A 2025-13-01 2025-01-02" "A" "2025-13-01" "2025-01-02" []
      (by decide) (Or.inl (by decide))⟩

/-- C7: when the parse succeeds, the resulting ScheduleSet holds exactly one
record per accepted data line, in input line order (no deduplication, no
reordering): it is the in-order `filterMap` of the per-line records. -/
theorem parse_preserves_order (text : String) (recs : List SprintRecord)
    (h : parse_sprint_data text = Except.ok recs) :
    recs = ((linesOf text).drop 1).filterMap lineRecord :=
  parseLines_ok _ recs h

/-- Witness for C7: the sample schedule parses to its three records in line
order. -/
theorem parse_preserves_order_witness :
    parse_sprint_data
        "h h h\nA 2025-01-01 2025-01-02\nB 2025-01-03 2025-01-04" =
      Except.ok [⟨"A", ⟨2025, 1, 1⟩, ⟨2025, 1, 2⟩⟩,
        ⟨"B", ⟨2025, 1, 3⟩, ⟨2025, 1, 4⟩⟩] ∧
    [(⟨"A", ⟨2025, 1, 1⟩, ⟨2025, 1, 2⟩⟩ : SprintRecord),
        ⟨"B", ⟨2025, 1, 3⟩, ⟨2025, 1, 4⟩⟩] =
      ((linesOf
        "h h h\nA 2025-01-01 2025-01-02\nB 2025-01-03 2025-01-04").drop
          1).filterMap lineRecord :=
  ⟨rfl,
    parse_preserves_order
      "h h h\nA 2025-01-01 2025-01-02\nB 2025-01-03 2025-01-04" _ rfl⟩

/-- C8: the first non-empty trimmed line is discarded unconditionally: the
parse result is that of the parser loop on the remaining lines alone, and
whatever records a successful parse returns come from those remaining lines
only — the first line contributes no record whatever its content. -/
theorem header_discarded (text first : String) (rest : List String)
    (h : linesOf text = first :: rest) :
    parse_sprint_data text = parseLines rest ∧
      ∀ recs, parse_sprint_data text = Except.ok recs →
        recs = rest.filterMap lineRecord := by
  constructor
  · unfold parse_sprint_data
    rw [h]
    rfl
  · intro recs hok
    have := parseLines_ok ((linesOf text).drop 1) recs hok
    rw [h] at this
    exact this

/-- Witness for C8: a well-formed sprint line in header position yields no
record. -/
theorem header_discarded_witness :
    linesOf "A 2025-01-01 2025-01-02\nB 2025-02-01 2025-02-02" =
        "A 2025-01-01 2025-01-02" :: ["B 2025-02-01 2025-02-02"] ∧
      parse_sprint_data "A 2025-01-01 2025-01-02\nB 2025-02-01 2025-02-02" =
        parseLines ["B 2025-02-01 2025-02-02"] :=
  ⟨by decide,
    (header_discarded "A 2025-01-01 2025-01-02\nB 2025-02-01 2025-02-02"
      "A 2025-01-01 2025-01-02" ["B 2025-02-01 2025-02-02"]
      (by decide)).1⟩

/-! ## Color assignment lemmas -/

/-- Looking up a name in the dict built from the comprehension's insertions
yields the color generated for the last record with that name. -/
theorem lookupDict_assignFrom (n : Nat) (k : String) :
    ∀ (rs : List SprintRecord) (i : Nat),
      lookupDict (assignFrom n i rs) k =
        ((List.enumFrom i rs).filter (fun p => p.2.sprint = k)).getLast?.map
          (fun p => paletteColor n p.1) := by
  intro rs
  induction rs with
  | nil => intro i; rfl
  | cons r rs ih =>
    intro i
    simp only [assignFrom, lookupDict, ih (i + 1), List.enumFrom,
      List.filter_cons, decide_eq_true_eq]
    by_cases hk : r.sprint = k
    · simp only [if_pos hk]
      cases hrest : (List.enumFrom (i + 1) rs).filter
          (fun p => decide (p.2.sprint = k)) with
      | nil => rfl
      | cons q qs =>
        simp only [List.getLast?_cons_cons]
        cases hl : (q :: qs).getLast? with
        | none => simp at hl
        | some v => rfl
    · simp only [if_neg hk]
      cases hX : ((List.enumFrom (i + 1) rs).filter
          (fun p => decide (p.2.sprint = k))).getLast? with
      | none => rfl
      | some p => rfl

/-- The keys inserted by the comprehension are exactly the sprint names, in
record order. -/
theorem assignFrom_keys (n : Nat) :
    ∀ (rs : List SprintRecord) (i : Nat),
      (assignFrom n i rs).map Prod.fst = rs.map (·.sprint) := by
  intro rs
  induction rs with
  | nil => intro i; rfl
  | cons r rs ih =>
    intro i
    simp only [assignFrom, List.map_cons, ih (i + 1)]

/-- Dict key order: folding insertions over any duplicate-free key list
keeps it duplicate-free, and the result holds exactly the old keys plus the
inserted ones. -/
theorem dictKeys_fold (l : List (String × Color)) :
    ∀ ks : List String, ks.Nodup →
      (l.foldl (fun ks kv => if kv.1 ∈ ks then ks else ks ++ [kv.1])
          ks).Nodup ∧
        ∀ k, k ∈ l.foldl (fun ks kv => if kv.1 ∈ ks then ks else ks ++ [kv.1])
            ks ↔ k ∈ ks ∨ k ∈ l.map Prod.fst := by
  induction l with
  | nil =>
    intro ks hks
    exact ⟨hks, fun k => by simp⟩
  | cons kv l ih =>
    intro ks hks
    simp only [List.foldl_cons]
    by_cases hm : kv.1 ∈ ks
    · rw [if_pos hm]
      obtain ⟨hnd, hmem⟩ := ih ks hks
      refine ⟨hnd, fun k => ?_⟩
      rw [hmem k]
      simp only [List.map_cons, List.mem_cons]
      constructor
      · rintro (h | h)
        · exact Or.inl h
        · exact Or.inr (Or.inr h)
      · rintro (h | h | h)
        · exact Or.inl h
        · exact Or.inl (h ▸ hm)
        · exact Or.inr h
    · rw [if_neg hm]
      have hks' : (ks ++ [kv.1]).Nodup := by
        simp [List.nodup_append, hks, List.disjoint_singleton, hm]
      obtain ⟨hnd, hmem⟩ := ih (ks ++ [kv.1]) hks'
      refine ⟨hnd, fun k => ?_⟩
      rw [hmem k]
      simp only [List.mem_append, List.mem_singleton, List.map_cons,
        List.mem_cons]
      tauto

/-- C10: with duplicate sprint names, the `sprint_colors` dict maps each
name to a single color — the one generated (from the palette sized to the
record count) for the last record bearing that name — so every record with
that name is painted with that one color; and the dict's key list, which the
legend iterates, is duplicate-free and holds exactly the distinct names. -/
theorem duplicate_names_single_color (df : List SprintRecord)
    (name : String) :
    lookupDict (colorAssignment df) name =
        ((df.enum.filter (fun p => p.2.sprint = name)).getLast?).map
          (fun p => paletteColor df.length p.1) ∧
      (dictKeys (colorAssignment df)).Nodup ∧
      ∀ k, k ∈ dictKeys (colorAssignment df) ↔ k ∈ df.map (·.sprint) := by
  obtain ⟨hnd, hmem⟩ := dictKeys_fold (colorAssignment df) [] List.nodup_nil
  refine ⟨lookupDict_assignFrom df.length name df 0, hnd, fun k => ?_⟩
  rw [dictKeys, hmem k, colorAssignment, assignFrom_keys df.length df 0]
  simp

/-- Witness for C10: on a schedule with name "0" appearing twice (records 0
and 3 of 4), the dict maps "0" to the color of record 3 and the key list is
the three distinct names once each. -/
theorem duplicate_names_single_color_witness :
    lookupDict (colorAssignment
          [⟨"0", ⟨2025, 3, 10⟩, ⟨2025, 3, 21⟩⟩,
           ⟨"1", ⟨2025, 3, 24⟩, ⟨2025, 4, 11⟩⟩,
           ⟨"2", ⟨2025, 4, 14⟩, ⟨2025, 5, 2⟩⟩,
           ⟨"0", ⟨2025, 6, 1⟩, ⟨2025, 6, 2⟩⟩]) "0" =
        (([(0, (⟨"0", ⟨2025, 3, 10⟩, ⟨2025, 3, 21⟩⟩ : SprintRecord)),
           (1, ⟨"1", ⟨2025, 3, 24⟩, ⟨2025, 4, 11⟩⟩),
           (2, ⟨"2", ⟨2025, 4, 14⟩, ⟨2025, 5, 2⟩⟩),
           (3, ⟨"0", ⟨2025, 6, 1⟩, ⟨2025, 6, 2⟩⟩)].filter
            (fun p => p.2.sprint = "0")).getLast?).map
          (fun p => paletteColor 4 p.1) ∧
      (dictKeys (colorAssignment
          [⟨"0", ⟨2025, 3, 10⟩, ⟨2025, 3, 21⟩⟩,
           ⟨"1", ⟨2025, 3, 24⟩, ⟨2025, 4, 11⟩⟩,
           ⟨"2", ⟨2025, 4, 14⟩, ⟨2025, 5, 2⟩⟩,
           ⟨"0", ⟨2025, 6, 1⟩, ⟨2025, 6, 2⟩⟩])).Nodup :=
  ⟨(duplicate_names_single_color _ "0").1,
    (duplicate_names_single_color
      [⟨"0", ⟨2025, 3, 10⟩, ⟨2025, 3, 21⟩⟩,
       ⟨"1", ⟨2025, 3, 24⟩, ⟨2025, 4, 11⟩⟩,
       ⟨"2", ⟨2025, 4, 14⟩, ⟨2025, 5, 2⟩⟩,
       ⟨"0", ⟨2025, 6, 1⟩, ⟨2025, 6, 2⟩⟩] "0").2.1⟩

/-! ## Cell painting lemmas -/

/-- The face color left by the sprint loop on one cell: the color of the
last sprint of the schedule covering the cell's date, or the initial face
color when none does. -/
theorem paintCells_facecolor (sc : String → Color) (y m day : Nat)
    (init : CellState) (sprints : List SprintRecord) :
    (paintCells sc y m day init sprints).facecolor =
      match (sprints.filter (fun sp => covers sp y m day)).getLast? with
      | some sp => some (sc sp.sprint)
      | none => init.facecolor := by
  induction sprints using List.reverseRecOn with
  | nil => rfl
  | append_singleton l sp ih =>
    rw [paintCells, List.foldl_append, List.foldl_cons, List.foldl_nil,
      List.filter_append]
    by_cases hc : covers sp y m day
    · simp only [List.filter_cons, List.filter_nil, if_pos hc,
        List.getLast?_concat]
      simp [paintStep, hc]
    · simp only [List.filter_cons, List.filter_nil, if_neg hc,
        List.append_nil]
      rw [paintStep, if_neg hc]
      exact ih

/-- The text color left by the sprint loop on one cell: white exactly when
it started white or some covering sprint's color is dark — a later light
repaint never restores the dark default. -/
theorem paintCells_textWhite (sc : String → Color) (y m day : Nat)
    (init : CellState) (sprints : List SprintRecord) :
    (paintCells sc y m day init sprints).textWhite =
      (init.textWhite ||
        sprints.any (fun sp => covers sp y m day && meanDark (sc sp.sprint))) := by
  induction sprints using List.reverseRecOn with
  | nil => simp [paintCells]
  | append_singleton l sp ih =>
    rw [paintCells, List.foldl_append, List.foldl_cons, List.foldl_nil,
      List.any_append, List.any_cons, List.any_nil]
    by_cases hc : covers sp y m day
    · by_cases hd : meanDark (sc sp.sprint)
      · simp [paintStep, hc, hd]
      · simp only [paintStep, if_pos hc, if_neg hd, hc, hd,
          Bool.and_false, Bool.false_or, Bool.or_false]
        exact ih
    · simp only [paintStep, if_neg hc, hc, Bool.false_and, Bool.false_or,
        Bool.or_false]
      exact ih

end SprintCal

namespace SprintCal

/-- C1: on any day cell whose date is covered by one or more sprints (in
particular by more than one), the final face color is the color assigned to
the sprint appearing latest in ScheduleSet order among those covering it:
each covering sprint overwrites the fill, so the last write wins, with no
blending and no error. -/
theorem overlap_last_write_wins (df : List SprintRecord) (y m day di : Nat)
    (sp : SprintRecord) (h : (covering df y m day).getLast? = some sp) :
    (cellAt df y m day di).facecolor = some (sprintColorOf df sp.sprint) := by
  rw [cellAt, paintCells_facecolor]
  rw [covering] at h
  rw [h]

/-- Witness for C1: sprints "A" and "B" both cover 2025-03-17; the cell is
painted with the color assigned to "B", the later of the two. -/
theorem overlap_last_write_wins_witness :
    (covering [⟨"A", ⟨2025, 3, 10⟩, ⟨2025, 3, 21⟩⟩,
        ⟨"B", ⟨2025, 3, 15⟩, ⟨2025, 3, 25⟩⟩] 2025 3 17).getLast? =
      some ⟨"B", ⟨2025, 3, 15⟩, ⟨2025, 3, 25⟩⟩ ∧
    (cellAt [⟨"A", ⟨2025, 3, 10⟩, ⟨2025, 3, 21⟩⟩,
        ⟨"B", ⟨2025, 3, 15⟩, ⟨2025, 3, 25⟩⟩] 2025 3 17 0).facecolor =
      some (sprintColorOf [⟨"A", ⟨2025, 3, 10⟩, ⟨2025, 3, 21⟩⟩,
        ⟨"B", ⟨2025, 3, 15⟩, ⟨2025, 3, 25⟩⟩] "B") :=
  ⟨by decide,
    overlap_last_write_wins
      [⟨"A", ⟨2025, 3, 10⟩, ⟨2025, 3, 21⟩⟩,
       ⟨"B", ⟨2025, 3, 15⟩, ⟨2025, 3, 25⟩⟩] 2025 3 17 0
      ⟨"B", ⟨2025, 3, 15⟩, ⟨2025, 3, 25⟩⟩ (by decide)⟩

/-- Counterexample to C2: on 2025-03-17, covered by a dark-colored sprint
"A" (tab10 entry 0) and then by a light-colored sprint "B" (tab10 entry 9),
the code's per-paint rule leaves the text white (set by "A", never reset by
"B"), while evaluating the rule only on the winning sprint's color leaves it
dark: the two policies do not produce the same visible text color. -/
theorem text_contrast_policies_differ :
    (cellAt [⟨"A", ⟨2025, 3, 10⟩, ⟨2025, 3, 21⟩⟩,
        ⟨"B", ⟨2025, 3, 15⟩, ⟨2025, 3, 25⟩⟩] 2025 3 17 0).textWhite = true ∧
      textWhiteOnceSpec [⟨"A", ⟨2025, 3, 10⟩, ⟨2025, 3, 21⟩⟩,
        ⟨"B", ⟨2025, 3, 15⟩, ⟨2025, 3, 25⟩⟩] 2025 3 17 = false := by
  constructor <;> with_unfolding_all decide

/-- C2 (amended): the white-text setting is sticky across repaints: the
final text of a day cell is white iff at least one sprint covering its date
has a dark assigned color (mean RGB < 0.5) — not necessarily the winning
one, so the per-paint rule is not equivalent to evaluating the check only on
the final fill. -/
theorem text_white_iff_dark_covering (df : List SprintRecord)
    (y m day di : Nat) :
    (cellAt df y m day di).textWhite =
      df.any (fun sp =>
        covers sp y m day && meanDark (sprintColorOf df sp.sprint)) := by
  rw [cellAt, paintCells_textWhite]
  simp [baseCell]

/-- C9: a Saturday or Sunday cell (columns 5 and 6) holding a day number
that no sprint covers keeps its light-gray weekend fill through the sprint
loop: the final face color is `#f2f2f2`, not the unfilled default. -/
theorem weekend_fill_retained (df : List SprintRecord) (y m wi di : Nat)
    (hdi : di = 5 ∨ di = 6) (hday : dayAt y m wi di ≠ 0)
    (hnc : covering df y m (dayAt y m wi di) = []) :
    (cellAt df y m (dayAt y m wi di) di).facecolor = some weekendGray := by
  rw [cellAt, paintCells_facecolor]
  rw [covering] at hnc
  rw [hnc]
  simp [baseCell, hdi, hday]

/-- One loop step advances the month index by one and keeps the month in
`1..12`. -/
theorem nextMonth_bounds (c : Nat × Nat) (h1 : 1 ≤ c.2) (h2 : c.2 ≤ 12) :
    1 ≤ (nextMonth c).2 ∧ (nextMonth c).2 ≤ 12 ∧
      monthIdx (nextMonth c) = monthIdx c + 1 := by
  obtain ⟨cy, cm⟩ := c
  simp only [nextMonth, monthIdx]
  by_cases h : cm + 1 > 12 <;> simp [h] <;> omega

/-- The enumeration loop lists exactly the months with indices from the
start month's to the end month's inclusive (empty when the start is past
the end). -/
theorem monthsFrom_eq_range :
    ∀ e c : Nat × Nat, 1 ≤ c.2 → c.2 ≤ 12 → 1 ≤ e.2 → e.2 ≤ 12 →
      monthsFrom e c =
        (List.range (monthIdx e + 1 - monthIdx c)).map
          (fun k => idxMonth (monthIdx c + k)) := by
  intro e c
  refine monthsFrom.induct e
    (fun c => 1 ≤ c.2 → c.2 ≤ 12 → 1 ≤ e.2 → e.2 ≤ 12 →
      monthsFrom e c =
        (List.range (monthIdx e + 1 - monthIdx c)).map
          (fun k => idxMonth (monthIdx c + k))) ?_ ?_ c
  · intro c hl ih h1 h2 h3 h4
    obtain ⟨hb1, hb2, hidx⟩ := nextMonth_bounds c h1 h2
    rw [monthsFrom, if_pos hl, ih hb1 hb2 h3 h4, hidx]
    have hle : monthIdx c ≤ monthIdx e := by
      obtain ⟨cy, cm⟩ := c
      obtain ⟨ey, em⟩ := e
      simp only [lexLe, Bool.or_eq_true, Bool.and_eq_true,
        decide_eq_true_eq] at hl
      simp only [monthIdx] at *
      omega
    obtain ⟨K, hK⟩ : ∃ K, monthIdx e + 1 - monthIdx c = K + 1 :=
      ⟨monthIdx e - monthIdx c, by omega⟩
    have hK' : monthIdx e + 1 - (monthIdx c + 1) = K := by omega
    rw [hK, hK', List.range_succ_eq_map, List.map_cons, List.map_map]
    congr 1
    · obtain ⟨cy, cm⟩ := c
      simp only [idxMonth, monthIdx, Nat.add_zero, Prod.mk.injEq]
      omega
    · apply List.map_congr_left
      intro a _
      exact congrArg idxMonth (by omega)
  · intro c hl h1 h2 h3 h4
    rw [monthsFrom, if_neg hl]
    obtain ⟨cy, cm⟩ := c
    obtain ⟨ey, em⟩ := e
    simp only [lexLe, Bool.or_eq_true, Bool.and_eq_true,
      decide_eq_true_eq] at hl
    have hz : monthIdx (ey, em) + 1 - monthIdx (cy, cm) = 0 := by
      simp only [monthIdx] at *
      omega
    rw [hz]
    rfl

/-- C3: for a non-empty schedule (minimum start date `mn`, maximum end date
`mx`), the renderer enumerates exactly the (year, month) pairs from `mn`'s
month through `mx`'s month inclusive, one month index at a time with
December rolling over to January of the next year; a schedule spanning a
single month yields exactly one month, a December→January span yields two
months with the year incremented, and the assembled figure holds one month
grid per enumerated month. -/
theorem months_enumeration (df : List SprintRecord) (mn mx : Date)
    (hmin : minStart df = some mn) (hmax : maxEnd df = some mx)
    (h1 : 1 ≤ mn.month) (h2 : mn.month ≤ 12)
    (h3 : 1 ≤ mx.month) (h4 : mx.month ≤ 12) :
    months_to_display df =
        (List.range (monthIdx (mx.year, mx.month) + 1 -
            monthIdx (mn.year, mn.month))).map
          (fun k => idxMonth (monthIdx (mn.year, mn.month) + k)) ∧
      (mn.year = mx.year → mn.month = mx.month →
        months_to_display df = [(mn.year, mn.month)]) ∧
      (mn.month = 12 → mx.year = mn.year + 1 → mx.month = 1 →
        months_to_display df = [(mn.year, 12), (mn.year + 1, 1)]) ∧
      ∀ fig, generate_wall_calendar df = some fig →
        fig.months = months_to_display df ∧
          fig.tables.length = (months_to_display df).length := by
  have hfull : months_to_display df =
      (List.range (monthIdx (mx.year, mx.month) + 1 -
          monthIdx (mn.year, mn.month))).map
        (fun k => idxMonth (monthIdx (mn.year, mn.month) + k)) := by
    rw [months_to_display, hmin, hmax]
    exact monthsFrom_eq_range (mx.year, mx.month) (mn.year, mn.month)
      h1 h2 h3 h4
  refine ⟨hfull, ?_, ?_, ?_⟩
  · intro hy hm
    have heq : monthIdx (mx.year, mx.month) = monthIdx (mn.year, mn.month) := by
      simp only [monthIdx]
      omega
    have hL : monthIdx (mx.year, mx.month) + 1 -
        monthIdx (mn.year, mn.month) = 1 := by
      omega
    have hr1 : List.range 1 = [0] := rfl
    rw [hfull, hL, hr1, List.map_cons, List.map_nil, Nat.add_zero]
    simp only [idxMonth, monthIdx, Prod.mk.injEq, List.cons.injEq,
      and_true]
    omega
  · intro h12 hy1 hm1
    have ha : monthIdx (mn.year, mn.month) = 12 * mn.year + 11 := by
      simp only [monthIdx]
      omega
    have hb : monthIdx (mx.year, mx.month) = 12 * mn.year + 12 := by
      simp only [monthIdx]
      omega
    have hL : monthIdx (mx.year, mx.month) + 1 -
        monthIdx (mn.year, mn.month) = 2 := by
      omega
    have hr2 : List.range 2 = [0, 1] := rfl
    rw [hfull, hL, ha, hr2, List.map_cons, List.map_cons, List.map_nil]
    simp only [idxMonth, Prod.mk.injEq, List.cons.injEq, and_true]
    omega
  · intro fig hfig
    cases df with
    | nil => simp [generate_wall_calendar] at hfig
    | cons r rs =>
      simp only [generate_wall_calendar, Option.some.injEq] at hfig
      rw [← hfig]
      exact ⟨rfl, by simp⟩

/-- Witness for C3: the three-sprint sample schedule spans 2025-03-10 to
2025-05-02, so the enumeration runs over the month indices of March through
May 2025. -/
theorem months_enumeration_witness :
    minStart [⟨"0", ⟨2025, 3, 10⟩, ⟨2025, 3, 21⟩⟩,
        ⟨"1", ⟨2025, 3, 24⟩, ⟨2025, 4, 11⟩⟩,
        ⟨"2", ⟨2025, 4, 14⟩, ⟨2025, 5, 2⟩⟩] = some ⟨2025, 3, 10⟩ ∧
      maxEnd [⟨"0", ⟨2025, 3, 10⟩, ⟨2025, 3, 21⟩⟩,
        ⟨"1", ⟨2025, 3, 24⟩, ⟨2025, 4, 11⟩⟩,
        ⟨"2", ⟨2025, 4, 14⟩, ⟨2025, 5, 2⟩⟩] = some ⟨2025, 5, 2⟩ ∧
      months_to_display [⟨"0", ⟨2025, 3, 10⟩, ⟨2025, 3, 21⟩⟩,
          ⟨"1", ⟨2025, 3, 24⟩, ⟨2025, 4, 11⟩⟩,
          ⟨"2", ⟨2025, 4, 14⟩, ⟨2025, 5, 2⟩⟩] =
        (List.range (monthIdx (2025, 5) + 1 - monthIdx (2025, 3))).map
          (fun k => idxMonth (monthIdx (2025, 3) + k)) :=
  ⟨by decide, by decide,
    (months_enumeration
      [⟨"0", ⟨2025, 3, 10⟩, ⟨2025, 3, 21⟩⟩,
       ⟨"1", ⟨2025, 3, 24⟩, ⟨2025, 4, 11⟩⟩,
       ⟨"2", ⟨2025, 4, 14⟩, ⟨2025, 5, 2⟩⟩] ⟨2025, 3, 10⟩ ⟨2025, 5, 2⟩
      (by decide) (by decide) (by decide) (by decide) (by decide)
      (by decide)).1⟩

/-- Witness for C9: Saturday 2025-03-01 (row 0, column 5 of March 2025) is
not covered by the sprint running 2025-03-10..2025-03-21 and keeps the
weekend fill. -/
theorem weekend_fill_retained_witness :
    ((5 : Nat) = 5 ∨ (5 : Nat) = 6) ∧
      dayAt 2025 3 0 5 ≠ 0 ∧
      covering [⟨"0", ⟨2025, 3, 10⟩, ⟨2025, 3, 21⟩⟩] 2025 3
          (dayAt 2025 3 0 5) = [] ∧
      (cellAt [⟨"0", ⟨2025, 3, 10⟩, ⟨2025, 3, 21⟩⟩] 2025 3
          (dayAt 2025 3 0 5) 5).facecolor = some weekendGray :=
  ⟨Or.inl rfl, by decide, by decide,
    weekend_fill_retained [⟨"0", ⟨2025, 3, 10⟩, ⟨2025, 3, 21⟩⟩] 2025 3 0 5
      (Or.inl rfl) (by decide) (by decide)⟩

end SprintCal
